import Mathlib

/-!
Verification of the layered configuration / data-interchange subsystem of
eljef/python_eljef_core against its specification.

The Python sources are shallowly embedded:
* Python values (the payloads of configuration mappings) become the inductive
  type `Value`; Python `dict`s become insertion-ordered association lists with
  Python assignment/lookup semantics (`dset`, `dlookup`).
* Pure functions (`merge.merge_dictionaries`, `kv.loads`, `kv.dumps`) become
  Lean functions; Python exceptions become `Except`.
* The filesystem touched by `fops` becomes an explicit association list from
  paths to entries, and stateful operations become functions on that state.
* The module-global mutable registry `__CONV_DATA_TO_STR_ARGS` of `fops.py`
  becomes explicit state threaded through the operations that touch it.
-/

namespace Eljef

/-- A Python value as stored in a configuration mapping: a scalar (`None`,
bool, int, str), a list, a set, or a nested dict. Dicts are modelled as
insertion-ordered association lists; key uniqueness is an invariant of the Python runtime and
is assumed (or hypothesised) where needed. -/
inductive Value where
  | vnull : Value
  | vbool : Bool → Value
  | vint : Int → Value
  | vstr : String → Value
  | vlist : List Value → Value
  | vset : List Value → Value
  | vdict : List (String × Value) → Value

/-- A Python dict with `Value` payloads. -/
abbrev Dict := List (String × Value)

/-- Python `d[k]` lookup (first binding wins; Python dicts have unique keys). -/
def dlookup {α : Type} (d : List (String × α)) (k : String) : Option α :=
  match d with
  | [] => none
  | (k2, v) :: rest => if k2 = k then some v else dlookup rest k

/-- Python `k in d` membership test. -/
def dmem {α : Type} (d : List (String × α)) (k : String) : Bool :=
  (dlookup d k).isSome

/-- Python `d[k] = v` assignment: replace the binding in place if the key is
present, otherwise append the new binding (insertion order). -/
def dset {α : Type} (d : List (String × α)) (k : String) (v : α) :
    List (String × α) :=
  match d with
  | [] => [(k, v)]
  | (k2, v2) :: rest => if k2 = k then (k, v) :: rest else (k2, v2) :: dset rest k v

/-- Python `d.update(other)`: assign every binding of `other` into `d`, in
order (caller keys win). -/
def dupdate {α : Type} (d other : List (String × α)) : List (String × α) :=
  other.foldl (fun acc p => dset acc p.1 p.2) d

@[simp] theorem dlookup_nil {α : Type} (k : String) :
    dlookup ([] : List (String × α)) k = none := rfl

theorem dlookup_dset_self {α : Type} (d : List (String × α)) (k : String) (v : α) :
    dlookup (dset d k v) k = some v := by
  induction d with
  | nil => simp [dset, dlookup]
  | cons p rest ih =>
    obtain ⟨k2, v2⟩ := p
    by_cases h : k2 = k
    · simp [dset, h, dlookup]
    · simp [dset, h, dlookup, ih]

theorem dlookup_dset_ne {α : Type} (d : List (String × α)) (k k2 : String) (v : α)
    (h : k2 ≠ k) : dlookup (dset d k v) k2 = dlookup d k2 := by
  induction d with
  | nil => simp [dset, dlookup, Ne.symm h]
  | cons p rest ih =>
    obtain ⟨k3, v3⟩ := p
    by_cases h3 : k3 = k
    · subst h3
      simp [dset, dlookup, Ne.symm h]
    · by_cases h2 : k3 = k2 <;> simp [dset, dlookup, h3, h2, h, ih]

/-- Assigning a key the value it already holds leaves the dict unchanged. -/
theorem dset_self {α : Type} (d : List (String × α)) (k : String) (v : α)
    (h : dlookup d k = some v) : dset d k v = d := by
  induction d with
  | nil => simp [dlookup] at h
  | cons p rest ih =>
    obtain ⟨k2, v2⟩ := p
    by_cases h2 : k2 = k
    · subst h2
      simp [dlookup] at h
      subst h
      simp [dset]
    · simp only [dlookup, if_neg h2] at h
      simp [dset, h2, ih h]

theorem dlookup_eq_none_forall {α : Type} (d : List (String × α)) (k : String)
    (h : dlookup d k = none) : ∀ p ∈ d, p.1 ≠ k := by
  induction d with
  | nil => intro p hp; cases hp
  | cons q rest ih =>
    obtain ⟨k2, v2⟩ := q
    by_cases h2 : k2 = k
    · simp [dlookup, h2] at h
    · intro p hp
      cases hp with
      | head => exact h2
      | tail _ hp =>
        simp only [dlookup, if_neg h2] at h
        exact ih h p hp

theorem dlookup_mem {α : Type} (d : List (String × α)) (k : String) (v : α)
    (h : dlookup d k = some v) : (k, v) ∈ d := by
  induction d with
  | nil => simp [dlookup] at h
  | cons p rest ih =>
    obtain ⟨k2, v2⟩ := p
    by_cases h2 : k2 = k
    · subst h2
      simp [dlookup] at h
      subst h
      exact List.mem_cons_self _ _
    · simp only [dlookup, if_neg h2] at h
      exact List.mem_cons_of_mem _ (ih h)

/-! Section: merge.py : `merge_dictionaries`

Source (src/eljef/core/merge.py):
```
def merge_dictionaries(dict_a: dict, dict_b: dict) -> dict:
    new = deepcopy(dict_a)
    for key, value in dict_b.items():
        if isinstance(value, dict):
            new[key] = merge_dictionaries(new.get(key, {}), value)
        else:
            new[key] = value
    return new
```
The embedding is pure, so `deepcopy` is the identity; the aliasing-freedom it
provides (never mutating either argument) is inherent in the model. The
recursive call passes `new.get(key, {})`, which may be a non-dict value: the
nested call then evaluates `.get` on a non-dict (Python `AttributeError`) or
performs `new[key] = value` item assignment on a non-dict (Python
`TypeError`). Those exception paths are modelled with `Except`. -/

/-- Exceptions that `merge_dictionaries` can raise. -/
inductive PyError where
  | typeError
  | attributeError
deriving DecidableEq

mutual

/-- Embedding of `merge_dictionaries(a, b)`. The loop `for key, value in
b.items()` requires `b` to be a dict (`.items()` on anything else raises
`AttributeError`; the source only ever passes dicts at top level). -/
def merge_dictionaries (a : Value) : Value → Except PyError Value
  | .vdict bs => mergeItems a bs
  | _ => .error .attributeError
termination_by b => sizeOf b

/-- The `for key, value in dict_b.items()` loop of `merge_dictionaries`,
with `new` as the accumulator. -/
def mergeItems (new : Value) : List (String × Value) → Except PyError Value
  | [] => .ok new
  | (k, v) :: rest =>
    match v with
    | .vdict vs =>
      match new with
      | .vdict ns =>
        match merge_dictionaries ((dlookup ns k).getD (.vdict [])) (.vdict vs) with
        | .ok m => mergeItems (.vdict (dset ns k m)) rest
        | .error e => .error e
      | _ => .error .attributeError
    | _ =>
      match new with
      | .vdict ns => mergeItems (.vdict (dset ns k v)) rest
      | _ => .error .typeError
termination_by l => sizeOf l
decreasing_by
  all_goals simp_wf <;> omega

end

/-- A value is a leaf for merging purposes when it is not a dict
(`isinstance(value, dict)` is false). -/
def isLeaf : Value → Bool
  | .vdict _ => false
  | _ => true

/-- Follow a path of keys through nested dicts. -/
def getPath : Value → List String → Option Value
  | v, [] => some v
  | .vdict d, k :: ks =>
    match dlookup d k with
    | some v => getPath v ks
    | none => none
  | _, _ :: _ => none

/-- Keys of an association list are pairwise distinct (the dict invariant of the Python runtime). -/
def keysNodupB {α : Type} : List (String × α) → Bool
  | [] => true
  | (k, _) :: rest => !(rest.any (fun p => p.1 == k)) && keysNodupB rest

mutual

/-- A value is well formed when every dict inside it has pairwise-distinct
keys; every value built by the Python runtime satisfies this. -/
def wfValue : Value → Bool
  | .vdict d => keysNodupB d && wfItems d
  | _ => true
termination_by v => sizeOf v

/-- All values of an association list are well formed. -/
def wfItems : List (String × Value) → Bool
  | [] => true
  | (_, v) :: rest => wfValue v && wfItems rest
termination_by l => sizeOf l
decreasing_by
  all_goals simp_wf <;> omega

end

theorem wfItems_dlookup (d : List (String × Value)) (k : String) (v : Value)
    (hwf : wfItems d = true) (h : dlookup d k = some v) : wfValue v = true := by
  induction d with
  | nil => simp [dlookup] at h
  | cons p rest ih =>
    obtain ⟨k2, v2⟩ := p
    rw [wfItems, Bool.and_eq_true] at hwf
    by_cases h2 : k2 = k
    · subst h2
      simp [dlookup] at h
      subst h
      exact hwf.1
    · simp only [dlookup, if_neg h2] at h
      exact ih hwf.2 h

theorem keysNodupB_head {α : Type} (k : String) (v : α) (rest : List (String × α))
    (h : keysNodupB ((k, v) :: rest) = true) :
    (∀ p ∈ rest, p.1 ≠ k) ∧ keysNodupB rest = true := by
  rw [keysNodupB, Bool.and_eq_true] at h
  refine ⟨?_, h.2⟩
  intro p hp hpk
  have h1 := h.1
  rw [Bool.not_eq_eq_eq_not, Bool.not_true, List.any_eq_false] at h1
  have := h1 p hp
  simp [hpk] at this

/-! Section: Python string primitives

`kv.py` and `fops.py` use Python `str` methods (`strip`, `split`, `replace`,
`lower`, membership). These are modelled here directly as structural
recursion over the character data of a `String`, following the documented CPython semantics, so that every definition evaluates by `rfl`/`decide`. -/

/-- The ASCII whitespace characters removed by Python `str.strip()`. -/
def pySpace (c : Char) : Bool :=
  c == ' ' || c == '\t' || c == '\n' || c == '\r' || c == '\x0b' || c == '\x0c'

/-- Python `s.strip()`: remove leading and trailing whitespace. -/
def pyStrip (s : String) : String :=
  ⟨((s.data.dropWhile pySpace).reverse.dropWhile pySpace).reverse⟩

/-- Python `s.lower()` (ASCII case folding, as used on format tags). -/
def pyLower (s : String) : String :=
  ⟨s.data.map Char.toLower⟩

/-- Python `c in s` for a single character. -/
def strContainsChar (s : String) (c : Char) : Bool :=
  s.data.contains c

/-- Helper for Python `s.split(sep)` with a single-character separator. -/
def splitCharAux (c : Char) : List Char → List Char → List (List Char)
  | [], acc => [acc.reverse]
  | x :: xs, acc =>
    if x == c then acc.reverse :: splitCharAux c xs []
    else splitCharAux c xs (x :: acc)

/-- Python `s.split(sep)` for a single-character separator: always returns at
least one piece; empty pieces are kept. -/
def pySplitChar (s : String) (c : Char) : List String :=
  (splitCharAux c s.data []).map (fun l => ⟨l⟩)

/-- Python `s.split(sep, 1)` for a single-character separator that is known to
occur in `s`: the text before the first occurrence and everything after it. -/
def breakOnChar (c : Char) : List Char → List Char × List Char
  | [] => ([], [])
  | x :: xs =>
    if x == c then ([], xs)
    else
      let r := breakOnChar c xs
      (x :: r.1, r.2)

/-- Python `s.replace("\r\n", "\n")`, the only `replace` call the sources
make: replace each non-overlapping CRLF occurrence, scanning left to right
and continuing after each replacement. -/
def replaceCRLF : List Char → List Char
  | [] => []
  | '\r' :: '\n' :: rest => '\n' :: replaceCRLF rest
  | c :: rest => c :: replaceCRLF rest

/-- Python `s.replace("\r\n", "\n")` on strings. -/
def pyReplaceCRLF (s : String) : String :=
  ⟨replaceCRLF s.data⟩

/-- Characters before the first occurrence of `mark` (the whole string when
the marker does not occur); the discard-from-marker-onward step of Python. -/
def cutAtMarker (mark : List Char) : List Char → List Char
  | [] => []
  | x :: xs =>
    if mark ≠ [] ∧ mark.isPrefixOf (x :: xs) then []
    else x :: cutAtMarker mark xs

/-! Section: kv.py : the flat key=value codec

Source (src/eljef/core/kv.py). `makestr` (from strings.py) is the identity on
`str` and Python `str()` on other scalars. -/

/-- Embedding of `strings.makestr` / `str()` applied to a scalar value. Composite values
never reach this function in `dumps` (the type check raises first); they are
given a placeholder rendering. -/
def makestr : Value → String
  | .vnull => "None"
  | .vbool b => if b then ("True") else ("False")
  | .vint i => toString i
  | .vstr s => s
  | .vlist _ => ""
  | .vset _ => ""
  | .vdict _ => ""

/-- The value types rejected by `kv.dumps`: `type(value) in (dict, list, set)`. -/
def isCompositeKV : Value → Bool
  | .vdict _ => true
  | .vlist _ => true
  | .vset _ => true
  | _ => false

/-- The loop of `kv.dumps`: accumulate `key=value` lines, raising `TypeError`
at the first dict/list/set value. The final `.strip()` of the source is
applied when the loop completes. -/
def kv_dumpsGo (equals_str : String) (acc : String) :
    Dict → Except String String
  | [] => .ok (pyStrip acc)
  | (key, value) :: rest =>
    if isCompositeKV value then
      .error ("value for key " ++ key ++ " is a dict, list, or set")
    else
      kv_dumpsGo equals_str (acc ++ makestr (.vstr key) ++ equals_str ++ makestr value ++ "\n") rest

/-- Embedding of `kv.dumps(data, spaced=...)`. `spaced` is the truthiness of
the `spaced` keyword argument. -/
def kv_dumps (data : Dict) (spaced : Bool) : Except String String :=
  kv_dumpsGo (if spaced then (" = ") else ("=")) ("") data

/-- The full-line comment prefixes of `kv.loads` (`_COMMENT_CHECKS`). -/
def commentChecks : List Char := [';', '#', '/']

/-- The per-line step of `kv.loads`: strip the line; skip it when it is
blank, starts with a comment character, or contains no `=`; otherwise split
on the first `=` and store the stripped key and value. -/
def kv_loadsLine (ret : List (String × String)) (line : String) :
    List (String × String) :=
  let new_line := pyStrip line
  if !new_line.isEmpty && !commentChecks.contains new_line.front
      && strContainsChar new_line '=' then
    let parts := breakOnChar '=' new_line.data
    dset ret (pyStrip ⟨parts.1⟩) (pyStrip ⟨parts.2⟩)
  else ret

/-- Embedding of `kv.loads(data)`: normalize CRLF to LF, split on newlines,
and fold the per-line step over the lines. -/
def kv_loads (data : String) : List (String × String) :=
  let new_data := pySplitChar (pyReplaceCRLF data) '\n'
  new_data.foldl kv_loadsLine []

/-- Modelled from the spec: the inline-comment decode option of the KV
decoder. The `kv.py` under src/ has no `comment` keyword (only the test suite
exercises it), so this step is taken from the words of the spec: "if an
inline-comment marker is supplied as a decode option and appears in the line,
everything from that marker onward (including on the value side) is discarded
before splitting on the first `=`". The discard happens after the line is
stripped and before the comment-prefix/`=` checks and the split. -/
def kv_loadsCommentLine (comment : String) (ret : List (String × String))
    (line : String) : List (String × String) :=
  let stripped := pyStrip line
  let new_line :=
    if comment ≠ ("") then pyStrip ⟨cutAtMarker comment.data stripped.data⟩
    else stripped
  if !new_line.isEmpty && !commentChecks.contains new_line.front
      && strContainsChar new_line '=' then
    let parts := breakOnChar '=' new_line.data
    dset ret (pyStrip ⟨parts.1⟩) (pyStrip ⟨parts.2⟩)
  else ret

/-- Modelled from the spec: `kv.loads(data, comment=...)` with an
inline-comment marker supplied. -/
def kv_loadsComment (comment : String) (data : String) :
    List (String × String) :=
  let new_data := pySplitChar (pyReplaceCRLF data) '\n'
  new_data.foldl (kv_loadsCommentLine comment) []

/-! Section: Behavior of `merge_dictionaries` on successful runs -/

theorem mergeItems_nil_eq (new : Value) : mergeItems new [] = .ok new := by
  simp [mergeItems]

theorem mergeItems_cons_leaf (ns : List (String × Value)) (k : String)
    (v : Value) (rest : List (String × Value)) (h : isLeaf v = true) :
    mergeItems (.vdict ns) ((k, v) :: rest) =
      mergeItems (.vdict (dset ns k v)) rest := by
  cases v <;> simp_all [mergeItems, isLeaf]

theorem mergeItems_cons_dict (ns : List (String × Value)) (k : String)
    (vs rest : List (String × Value)) :
    mergeItems (.vdict ns) ((k, .vdict vs) :: rest) =
      match merge_dictionaries ((dlookup ns k).getD (.vdict [])) (.vdict vs) with
      | .ok m => mergeItems (.vdict (dset ns k m)) rest
      | .error e => .error e := by
  simp [mergeItems]

theorem isLeaf_false_vdict (v : Value) (h : isLeaf v = false) :
    ∃ vs, v = .vdict vs := by
  cases v <;> simp_all [isLeaf]

/-- A successful merge loop run starting from a dict produces a dict. -/
theorem mergeItems_ok_vdict :
    ∀ (items : List (String × Value)) (ns : List (String × Value)) (r : Value),
      mergeItems (.vdict ns) items = .ok r → ∃ ms, r = .vdict ms := by
  intro items
  induction items with
  | nil =>
    intro ns r h
    rw [mergeItems_nil_eq] at h
    exact ⟨ns, (Except.ok.inj h).symm⟩
  | cons q rest ih =>
    obtain ⟨k, v⟩ := q
    intro ns r h
    by_cases hv : isLeaf v = true
    · rw [mergeItems_cons_leaf ns k v rest hv] at h
      exact ih _ _ h
    · obtain ⟨vs, rfl⟩ := isLeaf_false_vdict v (by simpa using hv)
      rw [mergeItems_cons_dict] at h
      split at h
      · exact ih _ _ h
      · cases h

/-- A successful merge loop run can only start from a dict when there is at
least one item to process. -/
theorem mergeItems_ok_source_vdict (q : String × Value)
    (rest : List (String × Value)) (A r : Value)
    (h : mergeItems A (q :: rest) = .ok r) : ∃ as, A = .vdict as := by
  obtain ⟨k, v⟩ := q
  cases A with
  | vdict as => exact ⟨as, rfl⟩
  | vnull => cases v <;> simp [mergeItems] at h
  | vbool b => cases v <;> simp [mergeItems] at h
  | vint i => cases v <;> simp [mergeItems] at h
  | vstr s => cases v <;> simp [mergeItems] at h
  | vlist l => cases v <;> simp [mergeItems] at h
  | vset l => cases v <;> simp [mergeItems] at h

/-- Keys not assigned by the loop keep their original binding. -/
theorem mergeItems_lookup_other :
    ∀ (items : List (String × Value)) (ns ms : List (String × Value)) (k : String),
      mergeItems (.vdict ns) items = .ok (.vdict ms) →
      (∀ p ∈ items, p.1 ≠ k) → dlookup ms k = dlookup ns k := by
  intro items
  induction items with
  | nil =>
    intro ns ms k h _
    rw [mergeItems_nil_eq] at h
    rw [Value.vdict.inj (Except.ok.inj h)]
  | cons q rest ih =>
    obtain ⟨k2, v⟩ := q
    intro ns ms k h hne
    have hk2 : k2 ≠ k := hne (k2, v) (List.mem_cons_self _ _)
    have hrest : ∀ p ∈ rest, p.1 ≠ k := fun p hp => hne p (List.mem_cons_of_mem _ hp)
    by_cases hv : isLeaf v = true
    · rw [mergeItems_cons_leaf ns k2 v rest hv] at h
      rw [ih _ _ _ h hrest]
      exact dlookup_dset_ne ns k2 k v (Ne.symm hk2)
    · obtain ⟨vs, rfl⟩ := isLeaf_false_vdict v (by simpa using hv)
      rw [mergeItems_cons_dict] at h
      split at h
      · rename_i m _
        rw [ih _ _ _ h hrest]
        exact dlookup_dset_ne ns k2 k m (Ne.symm hk2)
      · cases h

/-- What a successful merge loop run stores at a key assigned by the overlay:
the overlay value for a leaf, the result of the recursive merge for a
nested dict. -/
theorem mergeItems_lookup_item :
    ∀ (items : List (String × Value)) (ns ms : List (String × Value))
      (k : String) (v : Value),
      keysNodupB items = true →
      mergeItems (.vdict ns) items = .ok (.vdict ms) →
      dlookup items k = some v →
      (isLeaf v = true → dlookup ms k = some v) ∧
      (∀ vs, v = .vdict vs →
        ∃ m, merge_dictionaries ((dlookup ns k).getD (.vdict [])) (.vdict vs) = .ok m ∧
          dlookup ms k = some m) := by
  intro items
  induction items with
  | nil => intro ns ms k v _ _ hkv; simp [dlookup] at hkv
  | cons q rest ih =>
    obtain ⟨k2, v2⟩ := q
    intro ns ms k v hnd h hkv
    obtain ⟨hrestne, hndrest⟩ := keysNodupB_head k2 v2 rest hnd
    by_cases hk : k2 = k
    · subst hk
      simp [dlookup] at hkv
      subst hkv
      have hnok : ∀ p ∈ rest, p.1 ≠ k2 := hrestne
      by_cases hv : isLeaf v2 = true
      · rw [mergeItems_cons_leaf ns k2 v2 rest hv] at h
        constructor
        · intro _
          rw [mergeItems_lookup_other rest _ _ k2 h hnok]
          exact dlookup_dset_self ns k2 v2
        · intro vs hvs
          subst hvs
          simp [isLeaf] at hv
      · obtain ⟨vs0, rfl⟩ := isLeaf_false_vdict v2 (by simpa using hv)
        rw [mergeItems_cons_dict] at h
        split at h
        · rename_i m hm
          constructor
          · intro hl; simp [isLeaf] at hl
          · intro vs hvs
            rw [← Value.vdict.inj hvs]
            refine ⟨m, hm, ?_⟩
            rw [mergeItems_lookup_other rest _ _ k2 h hnok]
            exact dlookup_dset_self ns k2 m
        · cases h
    · have hkv2 : dlookup rest k = some v := by
        simpa [dlookup, hk] using hkv
      by_cases hv : isLeaf v2 = true
      · rw [mergeItems_cons_leaf ns k2 v2 rest hv] at h
        have := ih _ _ k v hndrest h hkv2
        rwa [dlookup_dset_ne ns k2 k v2 (Ne.symm hk)] at this
      · obtain ⟨vs0, rfl⟩ := isLeaf_false_vdict v2 (by simpa using hv)
        rw [mergeItems_cons_dict] at h
        split at h
        · rename_i m _
          have := ih _ _ k v hndrest h hkv2
          rwa [dlookup_dset_ne ns k2 k m (Ne.symm hk)] at this
        · cases h

theorem wfValue_vdict (bs : List (String × Value))
    (h : wfValue (.vdict bs) = true) :
    keysNodupB bs = true ∧ wfItems bs = true := by
  rw [wfValue, Bool.and_eq_true] at h
  exact h

/-- Every leaf reachable in the overlay is reachable, with the same value, in
the result of a successful merge. -/
theorem merge_ok_getPath :
    ∀ (p : List String) (B A M : Value), wfValue B = true →
      merge_dictionaries A B = .ok M →
      ∀ v, getPath B p = some v → isLeaf v = true → getPath M p = some v := by
  intro p
  induction p with
  | nil =>
    intro B A M hwf hok v hv hleaf
    simp only [getPath, Option.some.injEq] at hv
    subst hv
    cases B with
    | vdict bs => simp [isLeaf] at hleaf
    | vnull => simp [merge_dictionaries] at hok
    | vbool b => simp [merge_dictionaries] at hok
    | vint i => simp [merge_dictionaries] at hok
    | vstr s => simp [merge_dictionaries] at hok
    | vlist l => simp [merge_dictionaries] at hok
    | vset l => simp [merge_dictionaries] at hok
  | cons k ks ih =>
    intro B A M hwf hok v hv hleaf
    cases B with
    | vnull => simp [merge_dictionaries] at hok
    | vbool b => simp [merge_dictionaries] at hok
    | vint i => simp [merge_dictionaries] at hok
    | vstr s => simp [merge_dictionaries] at hok
    | vlist l => simp [merge_dictionaries] at hok
    | vset l => simp [merge_dictionaries] at hok
    | vdict bs =>
      simp only [merge_dictionaries] at hok
      simp only [getPath] at hv
      cases hbk : dlookup bs k with
      | none => rw [hbk] at hv; cases hv
      | some w =>
        rw [hbk] at hv
        cases bs with
        | nil => simp [dlookup] at hbk
        | cons q rest =>
          obtain ⟨as, rfl⟩ := mergeItems_ok_source_vdict q rest A M hok
          obtain ⟨ms, rfl⟩ := mergeItems_ok_vdict (q :: rest) as M hok
          obtain ⟨hnd, hwfi⟩ := wfValue_vdict (q :: rest) hwf
          have hitem := mergeItems_lookup_item (q :: rest) as ms k w hnd hok hbk
          by_cases hwl : isLeaf w = true
          · cases ks with
            | nil =>
              simp [getPath] at hv
              subst hv
              simp [getPath, hitem.1 hwl]
            | cons k2 ks2 =>
              exfalso
              cases w <;> simp [isLeaf] at hwl <;> simp [getPath] at hv
          · obtain ⟨ws, rfl⟩ := isLeaf_false_vdict w (by simpa using hwl)
            obtain ⟨m, hm, hms⟩ := hitem.2 ws rfl
            have hwfw : wfValue (.vdict ws) = true :=
              wfItems_dlookup (q :: rest) k (.vdict ws) hwfi hbk
            have hrec := ih (.vdict ws) _ m hwfw hm v hv hleaf
            simp [getPath, hms, hrec]

/-! Section: Inline-comment discarding in the KV decoder

For the spec-modelled inline-comment option: stripping and cutting at the
first marker occurrence interact as follows: a line built as
`pre ++ "#" ++ post`, with no marker inside `pre`, is decoded exactly as the
plain decoder decodes `pre`. -/

theorem dropWhile_append_block {p : Char → Bool} {c : Char} (hc : p c = false) :
    ∀ (a b : List Char),
      List.dropWhile p (a ++ c :: b) = List.dropWhile p a ++ c :: b := by
  intro a
  induction a with
  | nil =>
    intro b
    simp [List.dropWhile_cons, hc]
  | cons x xs ih =>
    intro b
    by_cases hx : p x = true
    · simp [List.dropWhile_cons, hx, ih]
    · simp [List.dropWhile_cons, hx]

theorem dropWhile_idem (p : Char → Bool) (l : List Char) :
    List.dropWhile p (List.dropWhile p l) = List.dropWhile p l := by
  induction l with
  | nil => rfl
  | cons x xs ih =>
    by_cases hx : p x = true
    · simp [List.dropWhile_cons, hx, ih]
    · simp [List.dropWhile_cons, hx]

theorem not_mem_dropWhile {c : Char} {p : Char → Bool} :
    ∀ {l : List Char}, c ∉ l → c ∉ List.dropWhile p l := by
  intro l
  induction l with
  | nil => intro h; exact h
  | cons x xs ih =>
    intro h
    have hx : c ≠ x := fun hh => h (hh ▸ List.mem_cons_self x xs)
    have hxs : c ∉ xs := fun hh => h (List.mem_cons_of_mem x hh)
    by_cases hp : p x = true
    · simpa [List.dropWhile_cons, hp] using ih hxs
    · simpa [List.dropWhile_cons, hp] using h

theorem cutAtMarker_hash (b : List Char) :
    ∀ (a : List Char), '#' ∉ a →
      cutAtMarker ['#'] (a ++ '#' :: b) = a := by
  intro a
  induction a with
  | nil =>
    intro _
    simp [cutAtMarker, List.isPrefixOf]
  | cons x xs ih =>
    intro h
    have hx : x ≠ '#' := fun hh => h (hh ▸ List.mem_cons_self x xs)
    have hxs : '#' ∉ xs := fun hh => h (List.mem_cons_of_mem x hh)
    have hpre : (['#'].isPrefixOf (x :: (xs ++ '#' :: b))) = false := by
      simp only [List.isPrefixOf, Bool.and_eq_false_iff, beq_eq_false_iff_ne]
      exact Or.inl (Ne.symm hx)
    simp only [List.cons_append, cutAtMarker, hpre]
    simp [ih hxs, Ne.symm hx]

theorem pyStrip_marker_split (pre post : String) :
    (pyStrip (pre ++ ("#") ++ post)).data =
      List.dropWhile pySpace pre.data ++ '#' ::
        (List.dropWhile pySpace post.data.reverse).reverse := by
  have hsp : pySpace '#' = false := rfl
  have hdata : (pre ++ ("#") ++ post).data = pre.data ++ '#' :: post.data := by
    simp [String.data_append]
  rw [pyStrip, hdata, dropWhile_append_block hsp, List.reverse_append,
    List.reverse_cons, List.append_assoc, List.singleton_append,
    dropWhile_append_block hsp, List.reverse_append, List.reverse_cons,
    List.reverse_reverse, List.append_assoc, List.singleton_append]

theorem cut_pyStrip_marker (pre post : String) (ha : '#' ∉ pre.data) :
    pyStrip ⟨cutAtMarker ['#'] (pyStrip (pre ++ ("#") ++ post)).data⟩ =
      pyStrip pre := by
  rw [pyStrip_marker_split, cutAtMarker_hash _ _ (not_mem_dropWhile ha)]
  show pyStrip ⟨List.dropWhile pySpace pre.data⟩ = pyStrip pre
  rw [pyStrip, pyStrip]
  show (⟨((List.dropWhile pySpace
      (List.dropWhile pySpace pre.data)).reverse.dropWhile pySpace).reverse⟩ : String) = _
  rw [dropWhile_idem]

/-! Section: fops.py : filesystem model

`fops.py` performs blocking filesystem calls (`os.path.exists`,
`os.path.isfile`, `os.rename`, `open`). The filesystem is modelled as an
association list from paths to entries; symbolic links are not needed by the
claims under verification and are not modelled. -/

/-- What kind of object a path names. -/
inductive PathKind where
  | file
  | dir
deriving DecidableEq

/-- A filesystem entry: its kind and (for files) its textual contents. -/
structure FSEntry where
  kind : PathKind
  contents : String
deriving DecidableEq

/-- The filesystem: a finite map from paths to entries. -/
abbrev FS := List (String × FSEntry)

/-- Embedding of `os.path.exists(p)`. -/
def fsExists (fs : FS) (p : String) : Bool :=
  (dlookup fs p).isSome

/-- Embedding of `os.path.isfile(p)`: the path exists and names a regular file. -/
def fsIsFile (fs : FS) (p : String) : Bool :=
  match dlookup fs p with
  | some e => e.kind == PathKind.file
  | none => false

/-- Embedding of `os.rename(src, dst)`: move the entry at `src` to `dst` (replacing any
entry at `dst`); no-op when `src` is absent (the sources only call it on
existing paths). -/
def fsRename (fs : FS) (src dst : String) : FS :=
  match dlookup fs src with
  | some e => (fs.filter (fun p => !(p.1 == src) && !(p.1 == dst))) ++ [(dst, e)]
  | none => fs

/-- Embedding of `fops.file_read(path)` (no strip): the textual contents of the file.
The sources call it only after checking existence; a missing path reads as
the empty string in the model. Unicode-decoding replacement (the
errors-replace mode) is below the abstraction level of the model. -/
def file_read (fs : FS) (path : String) : String :=
  match dlookup fs path with
  | some e => e.contents
  | none => ""

/-- The errors `fops` raises on the paths under verification:
`ValueError("Unsupported data_type: ...")` and `FileNotFoundError(msg)`. -/
inductive FopsError where
  | valueError : String → FopsError
  | fileNotFoundError : String → FopsError
deriving DecidableEq

/-- The keys of the module-global `__CONV_STR_TO_DATA` dispatch dict:
`json`, `xml`, `yaml` (the `fops.py` under src/ has no `kv` entry). -/
def convStrToDataKeys : List String := ["json", "xml", "yaml"]

/-- Embedding of `fops.file_read_convert(path, data_type, default)`.

`decode` abstracts the external parsing libraries dispatched through
`__CONV_STR_TO_DATA` (`json.loads` / `xmltodict.parse` / `yaml.load`): it maps
the lowercased format tag and the file text to the parsed value. The guards
are translated in source order: format-tag check first (no filesystem
argument is consulted there), then `os.path.exists`, then `os.path.isfile`. -/
def file_read_convert (decode : String → String → Value) (fs : FS)
    (path data_type : String) (dflt : Bool) : Except FopsError Value :=
  if !(convStrToDataKeys.contains (pyLower data_type)) then
    .error (.valueError ("Unsupported data_type: " ++ data_type))
  else if !(fsExists fs path) then
    if dflt then .ok (.vdict [])
    else .error (.fileNotFoundError ("Provided path does not exist: " ++ path))
  else if !(fsIsFile fs path) then
    .error (.fileNotFoundError ("Provided path exists, but is not a file: " ++ path))
  else
    .ok (decode (pyLower data_type) (file_read fs path))

/-- An options dict for a dumper (string keys to option values). -/
abbrev OptDict := List (String × Value)

/-- The registry state: the module-global mutable dict
`__CONV_DATA_TO_STR_ARGS` mapping each format tag to its default dumper
options. -/
abbrev ConvArgsState := List (String × OptDict)

/-- The value of `__CONV_DATA_TO_STR_ARGS` as initialized at import time. -/
def initConvArgs : ConvArgsState :=
  [("json", [("indent", .vint 4)]),
   ("xml", [("pretty", .vbool true), ("full_document", .vbool true),
            ("indent", .vstr ("    "))]),
   ("yaml", [("default_flow_style", .vbool false)])]

/-- Embedding of `fops.file_write_convert_defaults(data_type)` over the
current registry state. In Python the returned dict is the very
entry object of the registry (returned by reference, not copied); the model returns its
current value, and mutation of the entry is modelled by
`file_write_convert_state` returning an updated registry. -/
def file_write_convert_defaults (st : ConvArgsState) (data_type : String) :
    Except FopsError OptDict :=
  match dlookup st (pyLower data_type) with
  | none => .error (.valueError ("Unsupported data_type: " ++ data_type))
  | some kwargs => .ok kwargs

/-- The effect of one `fops.file_write_convert(path, data_type, data, backup,
dumper_args)` call on the registry state. The source does
`dumper_kwargs = file_write_convert_defaults(data_type)` — which aliases the
registry entry — and then, when `dumper_args` is truthy,
`dumper_kwargs.update(dumper_args)`, mutating that entry in place before the
dumper runs and the file is written (neither of which touches the registry,
so they are outside this state projection). `none` models `dumper_args=None`;
`some []` models an empty (falsy) dict. -/
def file_write_convert_state (st : ConvArgsState) (data_type : String)
    (dumper_args : Option OptDict) : Except FopsError ConvArgsState :=
  match file_write_convert_defaults st data_type with
  | .error e => .error e
  | .ok kwargs =>
    match dumper_args with
    | some args =>
      if args.isEmpty then .ok st
      else .ok (dset st (pyLower data_type) (dupdate kwargs args))
    | none => .ok st

/-- The backup-chain names of `fops.backup_path`: `path.bak`, `path.bak.1`,
`path.bak.2`, ... (`Nat.repr` is decimal formatting, as Python `str`). -/
def backupCandidate (path : String) (n : Nat) : String :=
  if n = 0 then path ++ ".bak" else path ++ ".bak." ++ Nat.repr n

/-- The `while os.path.exists(new_path)` loop of `backup_path`, searching
upward from index `n` for the first unused backup name. Termination of the Python loop rests on the filesystem being finite; the model makes that
explicit with a fuel argument (instantiated with `fs.length + 1`, which is
proved sufficient below). -/
def backupSearch (fs : FS) (path : String) : Nat → Nat → Nat
  | 0, n => n
  | fuel + 1, n =>
    if fsExists fs (backupCandidate path n) then backupSearch fs path fuel (n + 1)
    else n

/-- Embedding of `fops.backup_path(path)`: when `path` exists, rename it to
`path.bak` if that name is free, otherwise to `path.bak.N` for the first
`N ≥ 1` whose name is free; when `path` does not exist, do nothing. -/
def backup_path (fs : FS) (path : String) : FS :=
  if fsExists fs path then
    let chosen :=
      if fsExists fs (backupCandidate path 0) then
        backupCandidate path (backupSearch fs path (fs.length + 1) 1)
      else backupCandidate path 0
    fsRename fs path chosen
  else fs

/-! Section: Decimal formatting facts

`backup_path` builds names `path.bak.N` with Python decimal formatting,
modelled by `Nat.repr`. The distinctness of the backup-chain names (needed to
bound the search loop by the size of the filesystem) rests on injectivity of
decimal formatting, proved here via an evaluation function. -/

/-- The decimal digit list of `n`, most significant first (the mathematical
content of `Nat.toDigits 10`). -/
def reprDigits (n : Nat) : List Char :=
  if _h : n < 10 then [Nat.digitChar n]
  else reprDigits (n / 10) ++ [Nat.digitChar (n % 10)]
termination_by n
decreasing_by
  simp_wf
  exact Nat.div_lt_self (by omega) (by omega)

theorem reprDigits_small (n : Nat) (h : n < 10) :
    reprDigits n = [Nat.digitChar n] := by
  rw [reprDigits, dif_pos h]

theorem reprDigits_large (n : Nat) (h : ¬ n < 10) :
    reprDigits n = reprDigits (n / 10) ++ [Nat.digitChar (n % 10)] := by
  rw [reprDigits]
  exact dif_neg h

theorem toDigitsCore_eq_reprDigits :
    ∀ (fuel n : Nat) (ds : List Char), n < fuel →
      Nat.toDigitsCore 10 fuel n ds = reprDigits n ++ ds := by
  intro fuel
  induction fuel with
  | zero => intro n ds h; omega
  | succ f ih =>
    intro n ds h
    simp only [Nat.toDigitsCore]
    by_cases h0 : n / 10 = 0
    · have hn : n < 10 := by omega
      rw [if_pos h0, reprDigits_small n hn, Nat.mod_eq_of_lt hn]
      rfl
    · have hge : ¬ n < 10 := by omega
      have hlt : n / 10 < f := by omega
      rw [if_neg h0, ih (n / 10) _ hlt, reprDigits_large n hge,
        List.append_assoc]
      rfl

/-- Evaluate a most-significant-first decimal digit list. -/
def digitsVal (l : List Char) : Nat :=
  l.foldl (fun acc c => 10 * acc + (c.toNat - 48)) 0

theorem digitChar_toNat (d : Nat) (h : d < 10) :
    (Nat.digitChar d).toNat - 48 = d := by
  interval_cases d <;> rfl

theorem digitsVal_reprDigits (n : Nat) : digitsVal (reprDigits n) = n := by
  induction n using Nat.strong_induction_on with
  | _ n ih =>
    by_cases h : n < 10
    · rw [reprDigits_small n h]
      simp [digitsVal, digitChar_toNat n h]
    · rw [reprDigits_large n h]
      have h1 : n / 10 < n := Nat.div_lt_self (by omega) (by omega)
      have h2 := ih (n / 10) h1
      rw [digitsVal] at h2
      rw [digitsVal, List.foldl_append, h2]
      simp [digitChar_toNat (n % 10) (by omega)]
      omega

theorem toDigits_eq_reprDigits (n : Nat) : Nat.toDigits 10 n = reprDigits n := by
  rw [Nat.toDigits, toDigitsCore_eq_reprDigits (n + 1) n [] (Nat.lt_succ_self n),
    List.append_nil]

/-- Decimal formatting is injective, at the level of character data. -/
theorem repr_data_inj (m n : Nat)
    (h : (Nat.repr m).data = (Nat.repr n).data) : m = n := by
  have h2 : Nat.toDigits 10 m = Nat.toDigits 10 n := h
  rw [toDigits_eq_reprDigits, toDigits_eq_reprDigits] at h2
  have h3 := congrArg digitsVal h2
  rwa [digitsVal_reprDigits, digitsVal_reprDigits] at h3

theorem reprDigits_ne_nil (n : Nat) : reprDigits n ≠ [] := by
  by_cases h : n < 10
  · rw [reprDigits_small n h]; simp
  · rw [reprDigits_large n h]; simp

theorem repr_data_ne_nil (n : Nat) : (Nat.repr n).data ≠ [] := by
  have : (Nat.repr n).data = reprDigits n := toDigits_eq_reprDigits n
  rw [this]
  exact reprDigits_ne_nil n

/-- The backup-chain names for one path are pairwise distinct. -/
theorem backupCandidate_inj (path : String) (i j : Nat)
    (h : backupCandidate path i = backupCandidate path j) : i = j := by
  have hd := congrArg String.data h
  by_cases hi : i = 0 <;> by_cases hj : j = 0
  · omega
  · exfalso
    subst hi
    rw [backupCandidate, backupCandidate, if_pos rfl, if_neg hj] at hd
    simp only [String.data_append, List.append_assoc] at hd
    have hd2 := List.append_cancel_left hd
    have hlen := congrArg List.length hd2
    simp only [List.length_append, List.length_cons, List.length_nil] at hlen
    omega
  · exfalso
    subst hj
    rw [backupCandidate, backupCandidate, if_neg hi, if_pos rfl] at hd
    simp only [String.data_append, List.append_assoc] at hd
    have hd2 := List.append_cancel_left hd
    have hlen := congrArg List.length hd2
    simp only [List.length_append, List.length_cons, List.length_nil] at hlen
    omega
  · rw [backupCandidate, backupCandidate, if_neg hi, if_neg hj] at hd
    simp only [String.data_append, List.append_assoc] at hd
    have hd2 := List.append_cancel_left (List.append_cancel_left hd)
    exact repr_data_inj i j hd2

/-! Section: Behavior of `backup_path` -/

theorem dlookup_append_right {α : Type} (l1 l2 : List (String × α)) (k : String)
    (h : ∀ p ∈ l1, p.1 ≠ k) : dlookup (l1 ++ l2) k = dlookup l2 k := by
  induction l1 with
  | nil => rfl
  | cons q rest ih =>
    obtain ⟨k2, v2⟩ := q
    have hk2 : k2 ≠ k := h (k2, v2) (List.mem_cons_self _ _)
    simp only [List.cons_append, dlookup, if_neg hk2]
    exact ih (fun p hp => h p (List.mem_cons_of_mem _ hp))

theorem fsExists_iff_mem_keys (fs : FS) (p : String) :
    fsExists fs p = true ↔ p ∈ fs.map Prod.fst := by
  induction fs with
  | nil => simp [fsExists, dlookup]
  | cons q rest ih =>
    obtain ⟨k, e⟩ := q
    by_cases h : k = p
    · subst h
      simp [fsExists, dlookup]
    · have hstep : fsExists ((k, e) :: rest) p = fsExists rest p := by
        simp [fsExists, dlookup, h]
      rw [hstep, ih]
      simp only [List.map_cons, List.mem_cons]
      constructor
      · exact Or.inr
      · intro hc
        rcases hc with hc | hc
        · exact absurd hc.symm h
        · exact hc

/-- The search loop returns the first free index when there are `N`
contiguous used names, provided it has fuel to reach it. -/
theorem backupSearch_eq (fs : FS) (path : String) (N : Nat) :
    ∀ (fuel n : Nat), n ≤ N → N - n < fuel →
      (∀ i, i < N → fsExists fs (backupCandidate path i) = true) →
      fsExists fs (backupCandidate path N) = false →
      backupSearch fs path fuel n = N := by
  intro fuel
  induction fuel with
  | zero => intro n h2 h3 _ _; omega
  | succ f ih =>
    intro n h2 h3 hex hfree
    by_cases hn : n = N
    · subst hn
      simp only [backupSearch, hfree]
      simp
    · have hlt : n < N := by omega
      simp only [backupSearch, hex n hlt]
      simp only [if_true]
      exact ih (n + 1) (by omega) (by omega) hex hfree

/-- There cannot be more contiguous backups than filesystem entries: the
backup names are pairwise distinct, and each existing one is a key of the
filesystem map. -/
theorem backup_count_le (fs : FS) (path : String) (N : Nat)
    (hex : ∀ i, i < N → fsExists fs (backupCandidate path i) = true) :
    N ≤ fs.length := by
  have hsub : ((List.range N).map (backupCandidate path)) ⊆ fs.map Prod.fst := by
    intro x hx
    simp only [List.mem_map, List.mem_range] at hx
    obtain ⟨i, hi, rfl⟩ := hx
    exact (fsExists_iff_mem_keys fs _).mp (hex i hi)
  have hnd : ((List.range N).map (backupCandidate path)).Nodup :=
    (List.nodup_range N).map (fun i j h => backupCandidate_inj path i j h)
  have hle := List.Subperm.length_le (List.subperm_of_subset hnd hsub)
  simpa using hle

theorem fsRename_lookup_dst (fs : FS) (src dst : String) (e : FSEntry)
    (h : dlookup fs src = some e) :
    dlookup (fsRename fs src dst) dst = some e := by
  rw [fsRename, h]
  have hfil : ∀ p ∈ fs.filter (fun p => !(p.1 == src) && !(p.1 == dst)), p.1 ≠ dst := by
    intro p hp
    have := (List.mem_filter.mp hp).2
    simp only [Bool.and_eq_true, Bool.not_eq_eq_eq_not, Bool.not_true,
      beq_eq_false_iff_ne] at this
    exact this.2
  rw [dlookup_append_right _ _ dst hfil]
  simp [dlookup]

theorem fsRename_src_gone (fs : FS) (src dst : String) (hne : src ≠ dst) :
    fsExists (fsRename fs src dst) src = false := by
  rw [fsRename]
  cases h : dlookup fs src with
  | none => simp [fsExists, h]
  | some e =>
    have hfil : ∀ p ∈ fs.filter (fun p => !(p.1 == src) && !(p.1 == dst)),
        p.1 ≠ src := by
      intro p hp
      have := (List.mem_filter.mp hp).2
      simp only [Bool.and_eq_true, Bool.not_eq_eq_eq_not, Bool.not_true,
        beq_eq_false_iff_ne] at this
      exact this.1
    rw [fsExists, dlookup_append_right _ _ src hfil]
    simp [dlookup, Ne.symm hne]

/-! Section: settings.py : the `Settings` loader

Source (src/eljef/core/settings.py). The state of a constructed `Settings`
object: `self._defaults` (which aliases the caller dict — `__init__` stores
it without copying, so the `conf_back` insertion below is visible through the
reference held by the caller), the system and user halves of `self._settings`,
`self._loaded`, and the attribute set of the `self._sets` lambda object
(attribute assignment modelled as `dset`, `getattr` with default as
`dlookup`). -/

structure SettingsState where
  defaultsD : Dict
  systemD : Dict
  userD : Dict
  setsD : Dict
  loadedSystem : Bool
  loadedUser : Bool

/-- Embedding of `Settings._read_settings(path, settings_type)` acting on one
settings layer: when `os.path.isfile(path)`, read and parse the file through
`fops.file_read_convert` with the yaml tag and the allow-missing flag and `update` the layer with the
result. `decodeY` abstracts `yaml.load` (file text to parsed mapping);
feeding it through `file_read_convert` keeps the fops-level guards. -/
def Settings_read_settings (decodeY : String → Dict) (fs : FS) (cur : Dict)
    (path : String) : Dict × Bool :=
  if fsIsFile fs path then
    match file_read_convert (fun _ s => .vdict (decodeY s)) fs path ("yaml") true with
    | .ok (.vdict d) => (dupdate cur d, true)
    | _ => (cur, true)
  else (cur, false)

/-- Embedding of `Settings._apply_setting(setting)`: copy the highest-priority
binding (user, then system, then defaults) onto the `_sets` object. The
defaults branch indexes `self._defaults[setting]`; callers only reach it for
keys of the defaults dict, so the `getD Value.vnull` fallback of the model is
unreachable from `__init__`. -/
def Settings_apply_setting (st : SettingsState) (s : String) : SettingsState :=
  match dlookup st.userD s with
  | some v => { st with setsD := dset st.setsD s v }
  | none =>
    match dlookup st.systemD s with
    | some v => { st with setsD := dset st.setsD s v }
    | none =>
      { st with setsD := dset st.setsD s ((dlookup st.defaultsD s).getD .vnull) }

/-- Embedding of `Settings._apply_settings()`: apply every key of the
defaults dict, in insertion order. -/
def Settings_apply_settings (st : SettingsState) : SettingsState :=
  (st.defaultsD.map Prod.fst).foldl Settings_apply_setting st

/-- Embedding of `Settings.__init__(defaults, user_path, sys_path)`. Empty
path strings are falsy (the test suite passes an empty string for no-file). -/
def Settings_init (decodeY : String → Dict) (fs : FS) (defaults : Dict)
    (user_path sys_path : String) : SettingsState :=
  let defaults1 :=
    if dmem defaults ("conf_back") then defaults
    else dset defaults ("conf_back") (.vbool false)
  let st0 : SettingsState :=
    { defaultsD := defaults1, systemD := [], userD := [], setsD := []
      loadedSystem := false, loadedUser := false }
  let st1 :=
    if sys_path ≠ ("") then
      let r := Settings_read_settings decodeY fs st0.systemD sys_path
      { st0 with systemD := r.1, loadedSystem := r.2 }
    else st0
  let st2 :=
    if user_path ≠ ("") then
      let r := Settings_read_settings decodeY fs st1.userD user_path
      { st1 with userD := r.1, loadedUser := r.2 }
    else st1
  Settings_apply_settings st2

/-- Embedding of `Settings.get(setting)`: `getattr(self._sets, setting,
None)`; `none` is Python `None`. -/
def Settings_get (st : SettingsState) (s : String) : Option Value :=
  dlookup st.setsD s

/-! Section: Behavior of the `Settings` loader -/

theorem Settings_apply_setting_frame (st : SettingsState) (s : String) :
    (Settings_apply_setting st s).defaultsD = st.defaultsD ∧
    (Settings_apply_setting st s).systemD = st.systemD ∧
    (Settings_apply_setting st s).userD = st.userD := by
  rw [Settings_apply_setting]
  cases dlookup st.userD s with
  | some v => exact ⟨rfl, rfl, rfl⟩
  | none =>
    cases dlookup st.systemD s with
    | some v => exact ⟨rfl, rfl, rfl⟩
    | none => exact ⟨rfl, rfl, rfl⟩

theorem Settings_apply_setting_sets (st : SettingsState) (s : String) :
    ∃ x, (Settings_apply_setting st s).setsD = dset st.setsD s x := by
  rw [Settings_apply_setting]
  cases dlookup st.userD s with
  | some v => exact ⟨v, rfl⟩
  | none =>
    cases dlookup st.systemD s with
    | some v => exact ⟨v, rfl⟩
    | none => exact ⟨_, rfl⟩

theorem apply_fold_frame (keys : List String) :
    ∀ (st : SettingsState),
      (keys.foldl Settings_apply_setting st).defaultsD = st.defaultsD ∧
      (keys.foldl Settings_apply_setting st).systemD = st.systemD ∧
      (keys.foldl Settings_apply_setting st).userD = st.userD := by
  induction keys with
  | nil => intro st; exact ⟨rfl, rfl, rfl⟩
  | cons k rest ih =>
    intro st
    rw [List.foldl_cons]
    have h1 := ih (Settings_apply_setting st k)
    have h2 := Settings_apply_setting_frame st k
    exact ⟨h1.1.trans h2.1, h1.2.1.trans h2.2.1, h1.2.2.trans h2.2.2⟩

/-- If neither loaded layer binds `key`, the defaults value for `key` survives
the apply loop, provided `key` is among the keys applied (or was already
set). -/
theorem apply_fold_defaults_value (key : String) (v : Value) :
    ∀ (keys : List String) (st : SettingsState),
      dlookup st.userD key = none →
      dlookup st.systemD key = none →
      dlookup st.defaultsD key = some v →
      (key ∈ keys ∨ dlookup st.setsD key = some v) →
      dlookup (keys.foldl Settings_apply_setting st).setsD key = some v := by
  intro keys
  induction keys with
  | nil =>
    intro st _ _ _ hmem
    rcases hmem with h | h
    · cases h
    · exact h
  | cons k2 rest ih =>
    intro st hu hs hd hmem
    rw [List.foldl_cons]
    have hframe := Settings_apply_setting_frame st k2
    by_cases hk : k2 = key
    · subst hk
      have hsets : (Settings_apply_setting st k2).setsD =
          dset st.setsD k2 v := by
        rw [Settings_apply_setting, hu, hs, hd]
        rfl
      refine ih _ ?_ ?_ ?_ (Or.inr ?_)
      · rw [hframe.2.2]; exact hu
      · rw [hframe.2.1]; exact hs
      · rw [hframe.1]; exact hd
      · rw [hsets]; exact dlookup_dset_self _ _ _
    · obtain ⟨x, hsets⟩ := Settings_apply_setting_sets st k2
      refine ih _ ?_ ?_ ?_ ?_
      · rw [hframe.2.2]; exact hu
      · rw [hframe.2.1]; exact hs
      · rw [hframe.1]; exact hd
      · rcases hmem with h | h
        · rcases List.mem_cons.mp h with h2 | h2
          · exact absurd h2.symm hk
          · exact Or.inl h2
        · refine Or.inr ?_
          rw [hsets, dlookup_dset_ne st.setsD k2 key x (Ne.symm hk)]
          exact h

theorem dset_key_mem {α : Type} (d : List (String × α)) (k : String) (v : α) :
    k ∈ (dset d k v).map Prod.fst := by
  induction d with
  | nil => simp [dset]
  | cons q rest ih =>
    obtain ⟨k2, v2⟩ := q
    by_cases h : k2 = k
    · simp [dset, h]
    · simp only [dset, if_neg h, List.map_cons, List.mem_cons]
      exact Or.inr ih

/-- The fields of the state built by `Settings_init`, before the apply loop,
expressed structurally. -/
theorem Settings_init_eq (decodeY : String → Dict) (fs : FS) (defaults : Dict)
    (user_path sys_path : String) :
    Settings_init decodeY fs defaults user_path sys_path =
      Settings_apply_settings
        { defaultsD :=
            if dmem defaults ("conf_back") then defaults
            else dset defaults ("conf_back") (.vbool false)
          systemD :=
            if sys_path ≠ ("") then
              (Settings_read_settings decodeY fs [] sys_path).1
            else []
          userD :=
            if user_path ≠ ("") then
              (Settings_read_settings decodeY fs [] user_path).1
            else []
          setsD := []
          loadedSystem :=
            if sys_path ≠ ("") then
              (Settings_read_settings decodeY fs [] sys_path).2
            else false
          loadedUser :=
            if user_path ≠ ("") then
              (Settings_read_settings decodeY fs [] user_path).2
            else false } := by
  rw [Settings_init]
  by_cases hs : sys_path ≠ ("") <;> by_cases hu : user_path ≠ ("") <;>
    simp [hs, hu]

/-- The loop of `kv.dumps` fails whenever some remaining value is a
dict, list, or set, regardless of the accumulated output so far. -/
theorem kv_dumpsGo_error :
    ∀ (items : Dict) (es acc : String),
      (∃ p ∈ items, isCompositeKV p.2 = true) →
      ∃ msg, kv_dumpsGo es acc items = .error msg := by
  intro items
  induction items with
  | nil =>
    intro es acc h
    obtain ⟨p, hp, _⟩ := h
    cases hp
  | cons q rest ih =>
    obtain ⟨key, value⟩ := q
    intro es acc h
    by_cases hv : isCompositeKV value = true
    · exact ⟨("value for key " ++ key ++ " is a dict, list, or set"),
        by simp [kv_dumpsGo, hv]⟩
    · obtain ⟨p, hp, hc⟩ := h
      have hp2 : p ∈ rest := by
        cases hp with
        | head => exact absurd hc hv
        | tail _ h2 => exact h2
      have hrec := ih es (acc ++ makestr (.vstr key) ++ es ++ makestr value ++ "\n")
        ⟨p, hp2, hc⟩
      obtain ⟨msg, hmsg⟩ := hrec
      refine ⟨msg, ?_⟩
      rw [kv_dumpsGo, if_neg (by simp [hv])]
      exact hmsg

/-- A merge loop whose accumulator is a non-dict fails at the first item, no
matter what that item is. -/
theorem mergeItems_leaf_source_error (w : Value) (hw : isLeaf w = true)
    (q : String × Value) (rest : List (String × Value)) :
    ∃ e, mergeItems w (q :: rest) = .error e := by
  obtain ⟨k2, v2⟩ := q
  by_cases hv2 : isLeaf v2 = true
  · refine ⟨.typeError, ?_⟩
    cases v2 <;> cases w <;> simp_all [mergeItems, isLeaf]
  · obtain ⟨vs, rfl⟩ := isLeaf_false_vdict v2 (by simpa using hv2)
    refine ⟨.attributeError, ?_⟩
    cases w <;> simp_all [mergeItems, isLeaf]

/-! Section: The claims -/

/-- C1 (counterexample): the claim that `file_write_convert_defaults` returns
the same mapping before and after a `file_write_convert` call with
caller-supplied options is false. One call with `dumper_args` containing
`indent: 2` for the `json` tag mutates the registry entry in place (the
source merges the caller options into the dict object returned by reference
from the registry), so `file_write_convert_defaults` afterwards returns
`indent: 2`, not the original `indent: 4`. -/
theorem claim1_defaults_mutation_cex :
    file_write_convert_state initConvArgs ("json") (some [("indent", .vint 2)]) =
      .ok [("json", [("indent", .vint 2)]),
           ("xml", [("pretty", .vbool true), ("full_document", .vbool true),
                    ("indent", .vstr ("    "))]),
           ("yaml", [("default_flow_style", .vbool false)])] ∧
    file_write_convert_defaults
      [("json", [("indent", .vint 2)]),
       ("xml", [("pretty", .vbool true), ("full_document", .vbool true),
                ("indent", .vstr ("    "))]),
       ("yaml", [("default_flow_style", .vbool false)])] ("json") =
      .ok [("indent", .vint 2)] ∧
    file_write_convert_defaults initConvArgs ("json") =
      .ok [("indent", .vint 4)] ∧
    ([("indent", Value.vint 2)] : OptDict) ≠ [("indent", Value.vint 4)] := by
  refine ⟨rfl, rfl, rfl, ?_⟩
  intro h
  simp at h

/-- C1 (amended): `file_write_convert_defaults` returns the live registry
entry, and `file_write_convert` with a truthy `dumper_args` shallow-merges
the caller options into that entry (caller keys win), so the override
persists: afterwards `file_write_convert_defaults` returns the updated
mapping. A call with `dumper_args` absent (`None`) or empty leaves the
registry unchanged. -/
theorem claim1_defaults_live_registry :
    (∀ (st : ConvArgsState) (dt : String) (args kwargs : OptDict),
        file_write_convert_defaults st dt = .ok kwargs →
        args ≠ [] →
        file_write_convert_state st dt (some args) =
          .ok (dset st (pyLower dt) (dupdate kwargs args)) ∧
        file_write_convert_defaults (dset st (pyLower dt) (dupdate kwargs args)) dt =
          .ok (dupdate kwargs args))
    ∧ (∀ (st : ConvArgsState) (dt : String) (kwargs : OptDict),
        file_write_convert_defaults st dt = .ok kwargs →
        file_write_convert_state st dt none = .ok st ∧
        file_write_convert_state st dt (some []) = .ok st) := by
  constructor
  · intro st dt args kwargs hdef hne
    constructor
    · simp only [file_write_convert_state, hdef]
      cases args with
      | nil => exact absurd rfl hne
      | cons a as => rfl
    · simp only [file_write_convert_defaults, dlookup_dset_self]
  · intro st dt kwargs hdef
    constructor
    · simp only [file_write_convert_state, hdef]
    · simp only [file_write_convert_state, hdef]
      rfl

/-- C1 (witness for the amended claim) at the json tag with caller option
`indent: 2`. -/
theorem claim1_defaults_live_registry_witness :
    file_write_convert_state initConvArgs ("json") (some [("indent", Value.vint 2)]) =
      .ok (dset initConvArgs (pyLower ("json"))
        (dupdate [("indent", Value.vint 4)] [("indent", Value.vint 2)])) ∧
    file_write_convert_defaults
      (dset initConvArgs (pyLower ("json"))
        (dupdate [("indent", Value.vint 4)] [("indent", Value.vint 2)])) ("json") =
      .ok (dupdate [("indent", Value.vint 4)] [("indent", Value.vint 2)]) :=
  claim1_defaults_live_registry.1 initConvArgs ("json") [("indent", Value.vint 2)]
    [("indent", Value.vint 4)] rfl (List.cons_ne_nil _ _)

/-- Concrete yaml parses for the settings scenarios: the system file holds
`sys: sys`, the user file holds `user: user`, and a variant user file holds
`conf_back: true`. -/
def yamlStub : String → Dict := fun s =>
  if s = "sys: sys" then [("sys", .vstr ("sys"))]
  else if s = "user: user" then [("user", .vstr ("user"))]
  else if s = "conf_back: true" then [("conf_back", .vbool true)]
  else []

/-- A filesystem with a system-level and a user-level settings file. -/
def settingsFS : FS :=
  [("/etc/app.yaml", ⟨.file, "sys: sys"⟩),
   ("/home/user/app.yaml", ⟨.file, "user: user"⟩)]

/-- C2: evaluation of the `Settings` loader of src/ at the input of the claim:
defaults `test: test`, an existing system file `sys: sys`, an existing user
file `user: user`. Both files are read and stored in the layer dicts, but the
apply loop iterates only over the defaults keys, so the loaded view exposes
neither `sys` nor `user` (`get` returns `None` for both) — the claim (and the
test suite of the repository itself, which expects the merged union view through
`get_all`) requires `sys` and `user` to be present with their file values. -/
theorem claim2_settings_view_failing :
    Settings_get (Settings_init yamlStub settingsFS [("test", .vstr ("test"))]
      ("/home/user/app.yaml") ("/etc/app.yaml")) ("sys") = none ∧
    Settings_get (Settings_init yamlStub settingsFS [("test", .vstr ("test"))]
      ("/home/user/app.yaml") ("/etc/app.yaml")) ("user") = none ∧
    Settings_get (Settings_init yamlStub settingsFS [("test", .vstr ("test"))]
      ("/home/user/app.yaml") ("/etc/app.yaml")) ("test") = some (.vstr ("test")) ∧
    (Settings_init yamlStub settingsFS [("test", .vstr ("test"))]
      ("/home/user/app.yaml") ("/etc/app.yaml")).systemD = [("sys", .vstr ("sys"))] ∧
    (Settings_init yamlStub settingsFS [("test", .vstr ("test"))]
      ("/home/user/app.yaml") ("/etc/app.yaml")).userD = [("user", .vstr ("user"))] :=
  ⟨rfl, rfl, rfl, rfl, rfl⟩

/-- C3 (counterexample): when the overlay binds `k` to a (nonempty) mapping
but the base binds `k` to a string, `merge_dictionaries` does not replace the
base value — it recurses into the base value and raises (item assignment on a
non-dict). -/
theorem claim3_merge_mismatch_cex :
    merge_dictionaries (.vdict [("k", .vstr ("s"))])
      (.vdict [("k", .vdict [("x", .vint 1)])]) = .error .typeError := by
  simp [merge_dictionaries, mergeItems, dlookup]

/-- C3 (amended): when the overlay binds a key to a mapping but the base
binds the same key to a non-mapping value, `merge_dictionaries` attempts a
recursive merge into the base value instead of replacing it: if the overlay
mapping is nonempty this raises (`TypeError`/`AttributeError`); if the
overlay mapping is empty the non-mapping base value is kept unchanged (so
there is no wholesale replace in either case). -/
theorem claim3_merge_mismatch_amended :
    (∀ (ns : List (String × Value)) (k : String) (w : Value)
        (q : String × Value) (vrest : List (String × Value)),
      dlookup ns k = some w → isLeaf w = true →
      ∃ e, merge_dictionaries (.vdict ns) (.vdict [(k, .vdict (q :: vrest))]) =
        .error e)
    ∧ (∀ (ns : List (String × Value)) (k : String) (w : Value),
      dlookup ns k = some w → isLeaf w = true →
      merge_dictionaries (.vdict ns) (.vdict [(k, .vdict [])]) =
        .ok (.vdict ns)) := by
  constructor
  · intro ns k w q vrest h hleaf
    obtain ⟨e, he⟩ := mergeItems_leaf_source_error w hleaf q vrest
    refine ⟨e, ?_⟩
    simp only [merge_dictionaries, mergeItems_cons_dict, h, Option.getD_some, he]
  · intro ns k w h hleaf
    have hd : dset ns k w = ns := dset_self ns k w h
    simp only [merge_dictionaries, mergeItems_cons_dict, h, Option.getD_some,
      mergeItems_nil_eq, hd]

/-- C3 (witness for the amended claim): base `k: "s"` with overlay
`k: {x: 1}` errors; with overlay `k: {}` the base survives unchanged. -/
theorem claim3_merge_mismatch_amended_witness :
    (∃ e, merge_dictionaries (.vdict [("k", Value.vstr ("s"))])
      (.vdict [("k", .vdict [("x", Value.vint 1)])]) = .error e) ∧
    merge_dictionaries (.vdict [("k", Value.vstr ("s"))])
      (.vdict [("k", .vdict [])]) = .ok (.vdict [("k", Value.vstr ("s"))]) :=
  ⟨claim3_merge_mismatch_amended.1 [("k", .vstr ("s"))] ("k") (.vstr ("s"))
      (("x"), .vint 1) [] rfl rfl,
   claim3_merge_mismatch_amended.2 [("k", .vstr ("s"))] ("k") (.vstr ("s")) rfl rfl⟩

/-- C4 (counterexample): `merge_dictionaries` does not return a mapping for
all pairs of mappings — a nested-mapping overlay over a scalar base raises
instead of merging. -/
theorem claim4_merge_total_cex :
    merge_dictionaries (.vdict [("k", .vint 1)])
      (.vdict [("k", .vdict [("x", .vint 2)])]) = .error .typeError := by
  simp [merge_dictionaries, mergeItems, dlookup]

/-- C4 (amended): whenever `merge_dictionaries(A, B)` succeeds (which it
need not when a nested overlay mapping meets a non-mapping base value), the
result is a mapping, keys absent from B keep their binding from A, and every
leaf reachable in B (through nesting levels with distinct keys) is reachable
in the result with the value from B. The model is pure, so A and B themselves are
untouched by construction (the source guards this with `deepcopy`). -/
theorem claim4_merge_ok_overlay_wins :
    ∀ (as bs : List (String × Value)) (M : Value),
      merge_dictionaries (.vdict as) (.vdict bs) = .ok M →
      (∃ ms, M = .vdict ms ∧
        ∀ k, dlookup bs k = none → dlookup ms k = dlookup as k) ∧
      (wfValue (.vdict bs) = true →
        ∀ (p : List String) (v : Value), getPath (.vdict bs) p = some v →
          isLeaf v = true → getPath M p = some v) := by
  intro as bs M hok
  constructor
  · have hok2 : mergeItems (.vdict as) bs = .ok M := by
      simp only [merge_dictionaries] at hok
      exact hok
    obtain ⟨ms, rfl⟩ := mergeItems_ok_vdict bs as M hok2
    refine ⟨ms, rfl, ?_⟩
    intro k hk
    exact mergeItems_lookup_other bs as ms k hok2 (dlookup_eq_none_forall bs k hk)
  · intro hwf p v hv hleaf
    exact merge_ok_getPath p (.vdict bs) (.vdict as) M hwf hok v hv hleaf

/-- C4 (witness for the amended claim): merging `{b: 2}` over `{a: 1}`
succeeds, and the leaf `b` of the overlay is present in the result with the
value from the overlay. -/
theorem claim4_merge_ok_overlay_wins_witness :
    getPath (Value.vdict [("a", Value.vint 1), ("b", Value.vint 2)]) ["b"] =
      some (Value.vint 2) :=
  (claim4_merge_ok_overlay_wins [("a", .vint 1)] [("b", .vint 2)]
      (.vdict [("a", .vint 1), ("b", .vint 2)])
      (by simp [merge_dictionaries, mergeItems, dlookup, dset])).2
    (by simp [wfValue, wfItems, keysNodupB]) ["b"] (.vint 2)
    (by simp [getPath, dlookup]) rfl

/-- C5: `backup_path` is a no-op on a nonexistent path; on an existing path
with `N` pre-existing contiguous backups (`path.bak` through `path.bak.N-1`
exist, the `N`-th chain name does not) it renames the path to the `N`-th
chain name — the first unused one — never overwriting an existing backup (the
rename target provably did not exist), and afterwards the original path is
gone and the backup holds its entry. -/
theorem claim5_backup_path_first_unused :
    (∀ (fs : FS) (path : String), fsExists fs path = false →
      backup_path fs path = fs)
    ∧ (∀ (fs : FS) (path : String) (N : Nat),
        fsExists fs path = true →
        (∀ i, i < N → fsExists fs (backupCandidate path i) = true) →
        fsExists fs (backupCandidate path N) = false →
        backup_path fs path = fsRename fs path (backupCandidate path N) ∧
        dlookup (backup_path fs path) (backupCandidate path N) = dlookup fs path ∧
        fsExists (backup_path fs path) path = false) := by
  constructor
  · intro fs path h
    rw [backup_path, if_neg (by simp [h])]
  · intro fs path N hp hex hfree
    have hne : path ≠ backupCandidate path N := by
      intro hh
      rw [← hh] at hfree
      rw [hp] at hfree
      cases hfree
    have hchosen : backup_path fs path = fsRename fs path (backupCandidate path N) := by
      rw [backup_path, if_pos hp]
      cases N with
      | zero =>
        rw [if_neg (by simp [hfree])]
      | succ M =>
        have h0 : fsExists fs (backupCandidate path 0) = true :=
          hex 0 (Nat.succ_pos M)
        rw [if_pos h0]
        have hle := backup_count_le fs path (M + 1) hex
        rw [backupSearch_eq fs path (M + 1) (fs.length + 1) 1 (by omega)
          (by omega) hex hfree]
    obtain ⟨e, he⟩ := Option.isSome_iff_exists.mp hp
    refine ⟨hchosen, ?_, ?_⟩
    · rw [hchosen, fsRename_lookup_dst fs path _ e he, he]
    · rw [hchosen]
      exact fsRename_src_gone fs path _ hne

/-- A filesystem for the C5 witness: `f` exists and already has one backup. -/
def c5fs : FS := [("f", ⟨.file, "x"⟩), ("f.bak", ⟨.file, "y"⟩)]

/-- C5 (witness): with one pre-existing backup of `f`, the chosen name is the
second chain name `f.bak.1`. -/
theorem claim5_backup_path_first_unused_witness :
    backup_path c5fs ("f") = fsRename c5fs ("f") (backupCandidate ("f") 1) ∧
    dlookup (backup_path c5fs ("f")) (backupCandidate ("f") 1) =
      dlookup c5fs ("f") ∧
    fsExists (backup_path c5fs ("f")) ("f") = false :=
  claim5_backup_path_first_unused.2 c5fs ("f") 1 (by decide) (by decide) (by decide)

/-- C6: `file_read_convert` validates the format tag first (for an
unsupported tag the result is the `ValueError` for every filesystem, i.e.
independently of any filesystem access), then existence (missing path: empty
mapping when the allow-missing flag is set, not-found error otherwise), then
regular-file-ness (existing non-file: an error distinct from the missing
case). In the source both of the latter raise `FileNotFoundError`, with
distinct messages. -/
theorem claim6_file_read_convert_validation :
    (∀ (decode : String → String → Value) (fs : FS) (path dt : String)
        (dflt : Bool),
        pyLower dt ∉ convStrToDataKeys →
        file_read_convert decode fs path dt dflt =
          .error (.valueError ("Unsupported data_type: " ++ dt)))
    ∧ (∀ (decode : String → String → Value) (fs : FS) (path dt : String),
        pyLower dt ∈ convStrToDataKeys →
        fsExists fs path = false →
        file_read_convert decode fs path dt true = .ok (.vdict []) ∧
        file_read_convert decode fs path dt false =
          .error (.fileNotFoundError ("Provided path does not exist: " ++ path)))
    ∧ (∀ (decode : String → String → Value) (fs : FS) (path dt : String)
        (dflt : Bool),
        pyLower dt ∈ convStrToDataKeys →
        fsExists fs path = true →
        fsIsFile fs path = false →
        file_read_convert decode fs path dt dflt =
          .error (.fileNotFoundError
            ("Provided path exists, but is not a file: " ++ path)))
    ∧ (∀ path : String,
        FopsError.fileNotFoundError
            ("Provided path exists, but is not a file: " ++ path) ≠
          FopsError.fileNotFoundError ("Provided path does not exist: " ++ path)) := by
  refine ⟨?_, ?_, ?_, ?_⟩
  · intro decode fs path dt dflt h
    simp [file_read_convert, h]
  · intro decode fs path dt h h2
    constructor <;> simp [file_read_convert, h, h2]
  · intro decode fs path dt dflt h h2 h3
    simp [file_read_convert, h, h2, h3]
  · intro path h
    have h2 := FopsError.fileNotFoundError.inj h
    have h3 := congrArg String.data h2
    simp only [String.data_append] at h3
    have h4 := congrArg List.length h3
    simp only [List.length_append] at h4
    have h5 := Nat.add_right_cancel h4
    have h6 : ("Provided path exists, but is not a file: ").data.length ≠
        ("Provided path does not exist: ").data.length := by decide
    exact h6 h5

/-- C6 (witness): an unsupported tag fails on an empty filesystem; a missing
path with the allow-missing flag yields the empty mapping and without it the
not-found error; a directory path yields the wrong-kind error. -/
theorem claim6_file_read_convert_validation_witness :
    file_read_convert (fun _ _ => Value.vdict []) [] ("p") ("toml") false =
      .error (.valueError ("Unsupported data_type: " ++ "toml")) ∧
    file_read_convert (fun _ _ => Value.vdict []) [] ("p") ("json") true =
      .ok (.vdict []) ∧
    file_read_convert (fun _ _ => Value.vdict []) [] ("p") ("json") false =
      .error (.fileNotFoundError ("Provided path does not exist: " ++ "p")) ∧
    file_read_convert (fun _ _ => Value.vdict [])
        [(("d"), ⟨PathKind.dir, ""⟩)] ("d") ("json") true =
      .error (.fileNotFoundError ("Provided path exists, but is not a file: " ++ "d")) :=
  ⟨claim6_file_read_convert_validation.1 _ [] ("p") ("toml") false (by decide),
   (claim6_file_read_convert_validation.2.1 _ [] ("p") ("json") (by decide) rfl).1,
   (claim6_file_read_convert_validation.2.1 _ [] ("p") ("json") (by decide) rfl).2,
   claim6_file_read_convert_validation.2.2.1 _ [(("d"), ⟨PathKind.dir, ""⟩)]
     ("d") ("json") true (by decide) rfl rfl⟩

/-- C7: with inline-comment marker `#` supplied, a line `pre ++ "#" ++ post`
whose text before the marker contains no marker decodes exactly as the plain
decoder decodes `pre` — everything from the marker onward (including on the
value side) is discarded before the comment-prefix / `=` checks and the
first-`=` split; and the example input of the spec decodes to `test3: test3` with
the trailing comment stripped. (The inline-comment option is absent from the
`kv.py` under src/ and is modelled from the spec; see `kv_loadsCommentLine`.) -/
theorem claim7_kv_inline_comment :
    (∀ (ret : List (String × String)) (pre post : String),
        '#' ∉ pre.data →
        kv_loadsCommentLine ("#") ret (pre ++ ("#") ++ post) =
          kv_loadsLine ret pre)
    ∧ kv_loadsComment ("#") (";c\n# c\n/ c\ntest3=test3 # inline") =
        [("test3", "test3")] := by
  constructor
  · intro ret pre post ha
    have key := cut_pyStrip_marker pre post ha
    simp only [kv_loadsCommentLine, kv_loadsLine]
    rw [if_pos (by decide : (("#") : String) ≠ (""))]
    rw [key]
  · rfl

/-- C7 (witness): the general discard property at the line
`test3=test3 # inline`. -/
theorem claim7_kv_inline_comment_witness :
    kv_loadsCommentLine ("#") [] ("test3=test3 " ++ ("#") ++ " inline") =
      kv_loadsLine [] ("test3=test3 ") :=
  claim7_kv_inline_comment.1 [] ("test3=test3 ") (" inline") (by decide)

/-- C8: the KV decoder trims each line and produces no entry for blank
lines, for lines whose first character after trimming is `;`, `#`, or `/`,
and for lines without `=` (silently, not an error); a line with `=` is split
on the first `=` only (the value may contain `=`), with key and value
trimmed; the two-line example decodes to its two pairs. -/
theorem claim8_kv_loads_rules :
    (∀ (ret : List (String × String)) (line : String),
        pyStrip line = ("") → kv_loadsLine ret line = ret)
    ∧ (∀ (ret : List (String × String)) (line : String),
        commentChecks.contains (pyStrip line).front = true →
        kv_loadsLine ret line = ret)
    ∧ (∀ (ret : List (String × String)) (line : String),
        strContainsChar (pyStrip line) '=' = false → kv_loadsLine ret line = ret)
    ∧ kv_loads ("test=test\ntest2=test2") = [("test", "test"), ("test2", "test2")]
    ∧ kv_loads ("a=b=c") = [("a", "b=c")]
    ∧ kv_loads ("  test =   test  ") = [("test", "test")] := by
  refine ⟨?_, ?_, ?_, rfl, rfl, rfl⟩
  · intro ret line h
    have hc : (!(pyStrip line).isEmpty &&
        !commentChecks.contains (pyStrip line).front &&
        strContainsChar (pyStrip line) '=') = false := by
      rw [h]
      decide
    simp only [kv_loadsLine]
    rw [hc]
    simp
  · intro ret line h
    have hc : (!(pyStrip line).isEmpty &&
        !commentChecks.contains (pyStrip line).front &&
        strContainsChar (pyStrip line) '=') = false := by
      rw [h]
      simp
    simp only [kv_loadsLine]
    rw [hc]
    simp
  · intro ret line h
    have hc : (!(pyStrip line).isEmpty &&
        !commentChecks.contains (pyStrip line).front &&
        strContainsChar (pyStrip line) '=') = false := by
      rw [h]
      simp
    simp only [kv_loadsLine]
    rw [hc]
    simp

/-- C8 (witness): a blank line, a comment line, and an `=`-free line each
produce no entry. -/
theorem claim8_kv_loads_rules_witness :
    kv_loadsLine [] ("   ") = [] ∧
    kv_loadsLine [] ("# note") = [] ∧
    kv_loadsLine [] ("no equals sign") = [] :=
  ⟨claim8_kv_loads_rules.1 [] ("   ") rfl,
   claim8_kv_loads_rules.2.1 [] ("# note") rfl,
   claim8_kv_loads_rules.2.2.1 [] ("no equals sign") rfl⟩

/-- C9: `kv.dumps` fails with `TypeError` whenever any value of the mapping
is itself a dict, list, or set; the check happens inside the encode loop,
before any encoded text is returned (the function either raises or returns,
so no output is produced on the failing runs). -/
theorem claim9_kv_dumps_rejects_composite :
    ∀ (data : Dict) (spaced : Bool) (p : String × Value),
      p ∈ data → isCompositeKV p.2 = true →
      ∃ msg, kv_dumps data spaced = .error msg := by
  intro data spaced p hp hc
  rw [kv_dumps]
  exact kv_dumpsGo_error data _ ("") ⟨p, hp, hc⟩

/-- C9 (witness): a mapping with a nested dict value fails to encode. -/
theorem claim9_kv_dumps_rejects_composite_witness :
    ∃ msg, kv_dumps [(("k"), Value.vdict [])] false = .error msg :=
  claim9_kv_dumps_rejects_composite [(("k"), .vdict [])] false (("k"), .vdict [])
    (List.mem_singleton.mpr rfl) rfl

/-- A filesystem whose user-level settings file binds `conf_back: true`. -/
def confBackFS : FS := [("/home/user/app.yaml", ⟨.file, "conf_back: true"⟩)]

/-- C10 (counterexample): the conf-back lookup via `get` does not always return `False`
when the caller-supplied defaults lack the key — a loaded settings file that binds
`conf_back` wins over the inserted default, so `get` returns the value from
that file (`True` here), refuting the unconditional conclusion of the claim. -/
theorem claim10_conf_back_cex :
    Settings_get (Settings_init yamlStub confBackFS [("test", .vstr ("test"))]
      ("/home/user/app.yaml") ("")) ("conf_back") = some (.vbool true) ∧
    some (Value.vbool true) ≠ some (Value.vbool false) := by
  refine ⟨rfl, ?_⟩
  intro h
  simp at h

/-- C10 (amended): when `conf_back` is absent from the caller-supplied
defaults dict, `Settings.__init__` inserts `conf_back: False` into that very
dict (the constructor stores the caller dict without copying, so the
insertion is visible through the reference held by the caller), and the conf-back lookup
returns `False` provided neither loaded settings layer binds `conf_back`;
when a loaded layer does bind it, `get` returns the value of that layer instead,
while the defaults dict is still mutated. -/
theorem claim10_conf_back_amended :
    ∀ (decodeY : String → Dict) (fs : FS) (defaults : Dict) (up sp : String),
      dmem defaults ("conf_back") = false →
      (Settings_init decodeY fs defaults up sp).defaultsD =
        dset defaults ("conf_back") (.vbool false) ∧
      (dlookup (Settings_init decodeY fs defaults up sp).userD ("conf_back") = none →
        dlookup (Settings_init decodeY fs defaults up sp).systemD ("conf_back") = none →
        Settings_get (Settings_init decodeY fs defaults up sp) ("conf_back") =
          some (.vbool false)) := by
  intro decodeY fs defaults up sp habs
  rw [Settings_init_eq decodeY fs defaults up sp]
  rw [Settings_apply_settings]
  set st2 : SettingsState :=
    { defaultsD :=
        if dmem defaults ("conf_back") then defaults
        else dset defaults ("conf_back") (.vbool false)
      systemD :=
        if sp ≠ ("") then (Settings_read_settings decodeY fs [] sp).1 else []
      userD :=
        if up ≠ ("") then (Settings_read_settings decodeY fs [] up).1 else []
      setsD := []
      loadedSystem :=
        if sp ≠ ("") then (Settings_read_settings decodeY fs [] sp).2 else false
      loadedUser :=
        if up ≠ ("") then (Settings_read_settings decodeY fs [] up).2 else false }
    with hst2
  have hframe := apply_fold_frame (st2.defaultsD.map Prod.fst) st2
  have hdef2 : st2.defaultsD = dset defaults ("conf_back") (.vbool false) := by
    rw [hst2]
    simp [habs]
  constructor
  · rw [hframe.1, hdef2]
  · intro hu hs
    rw [hframe.2.2] at hu
    rw [hframe.2.1] at hs
    rw [Settings_get]
    refine apply_fold_defaults_value ("conf_back") (.vbool false) _ st2 hu hs ?_
      (Or.inl ?_)
    · rw [hdef2]
      exact dlookup_dset_self defaults ("conf_back") (.vbool false)
    · rw [hdef2]
      exact dset_key_mem defaults ("conf_back") (.vbool false)

/-- C10 (witness for the amended claim): with defaults `test: test`, no
settings files, and `conf_back` unsupplied, the defaults dict gains
`conf_back: False` and the conf-back lookup via `get` returns `False`. -/
theorem claim10_conf_back_amended_witness :
    (Settings_init (fun _ => []) [] [("test", Value.vstr ("test"))] ("") ("")).defaultsD =
      dset [("test", Value.vstr ("test"))] ("conf_back") (.vbool false) ∧
    Settings_get (Settings_init (fun _ => []) [] [("test", Value.vstr ("test"))]
      ("") ("")) ("conf_back") = some (.vbool false) :=
  ⟨(claim10_conf_back_amended (fun _ => []) [] [("test", Value.vstr ("test"))]
      ("") ("") rfl).1,
   (claim10_conf_back_amended (fun _ => []) [] [("test", Value.vstr ("test"))]
      ("") ("") rfl).2 rfl rfl⟩

end Eljef
